import Mathlib

/-!
Shallow embedding of the Python Family Tree Explorer
(src/FamilyTree Project/Main Project.py).

People are mutable Python objects with identity; we model object identity
by a natural-number id and the heap of person objects by a total function
`Store : Nat → Person`.  Python `set`s of persons hash by object identity,
so they become duplicate-free lists of ids; their iteration order is
unspecified in Python, and we fix the insertion order of the loops that
build them.  Python `dict` iteration order is insertion order, so the
registry `family_tree.members` becomes the list of ids in insertion order
together with the store (keys are the stored names).  Dates become a
(year, month, day) structure with the proleptic-Gregorian ordinal of
`datetime.date.toordinal`, so that `(d2 - d1).days` is the ordinal
difference; Python floor division `//` becomes `Int.fdiv`, and the float
division of `calculate_average_age` becomes exact division in `ℚ`.
-/

/-- A calendar date, as Python `datetime.date(year, month, day)`. -/
structure PDate where
  year : Nat
  month : Nat
  day : Nat
deriving DecidableEq, Repr

/-- Gregorian leap-year test, as in the `datetime` module. -/
def PDate.isLeap (y : Nat) : Bool :=
  y % 4 == 0 && (y % 100 != 0 || y % 400 == 0)

/-- Days in the months of a year strictly before month `m`. -/
def PDate.daysBeforeMonth (y m : Nat) : Nat :=
  let base := [0, 31, 59, 90, 120, 151, 181, 212, 243, 273, 304, 334].getD (m - 1) 0
  if 2 < m && PDate.isLeap y then base + 1 else base

/-- `datetime.date.toordinal`: day number with 0001-01-01 as day 1. -/
def PDate.toordinal (d : PDate) : Nat :=
  365 * (d.year - 1) + (d.year - 1) / 4 - (d.year - 1) / 100 + (d.year - 1) / 400
    + PDate.daysBeforeMonth d.year d.month + d.day

/-- `(d2 - d1).days` of Python `datetime`: difference of ordinals. -/
def PDate.daysBetween (d1 d2 : PDate) : Int :=
  (PDate.toordinal d2 : Int) - (PDate.toordinal d1 : Int)

/-- The two concrete subclasses of `PersonBase`: `LivingPerson` carries no
death date, `DeceasedPerson` adds one. -/
inductive Variant where
  | living : Variant
  | deceased (death_date : PDate) : Variant
deriving DecidableEq, Repr

/-- One person object: `_name`, `_birth_date`, `_parents`, `_children`,
`_spouse` of `PersonBase.__init__`, plus the subclass tag.  Links are
object references, hence ids. -/
structure Person where
  name : String
  birth_date : PDate
  variant : Variant
  parents : List Nat
  children : List Nat
  spouse : Option Nat
deriving DecidableEq, Repr

/-- `isinstance(p, LivingPerson)`. -/
def Person.isLiving (p : Person) : Bool :=
  match p.variant with
  | Variant.living => true
  | Variant.deceased _ => false

/-- `isinstance(p, DeceasedPerson)`. -/
def Person.isDeceased (p : Person) : Bool :=
  match p.variant with
  | Variant.living => false
  | Variant.deceased _ => true

/-- `person.death_date - person.birth_date).days // 365` for a deceased
person (`//` is floor division, `Int.fdiv`). -/
def Person.ageAtDeath (p : Person) : Int :=
  match p.variant with
  | Variant.living => 0
  | Variant.deceased dd => (PDate.daysBetween p.birth_date dd).fdiv 365

/-- The heap of person objects, indexed by object identity. -/
def Store : Type := Nat → Person

/-- Overwrite the object at one id. -/
def upd (s : Store) (i : Nat) (p : Person) : Store :=
  fun j => if j = i then p else s j

/-- `PersonBase.__init__(name, birth_date)` for a living person:
empty parents, empty children, no spouse. -/
def mkLiving (name : String) (bd : PDate) : Person :=
  { name := name, birth_date := bd, variant := Variant.living
    parents := [], children := [], spouse := none }

/-- `DeceasedPerson.__init__(name, birth_date, death_date)`. -/
def mkDeceased (name : String) (bd dd : PDate) : Person :=
  { name := name, birth_date := bd, variant := Variant.deceased dd
    parents := [], children := [], spouse := none }

/-- `PersonBase.set_parents(parents)`: replaces the parents list of
`selfId`, then appends `selfId` to the children list of each parent in
order. -/
def set_parents (s : Store) (selfId : Nat) (ps : List Nat) : Store :=
  let s1 := upd s selfId { s selfId with parents := ps }
  ps.foldl (fun st par => upd st par { st par with children := (st par).children ++ [selfId] }) s1

/-- `PersonBase.set_children(children)`: replaces the children list of
`selfId`, then appends `selfId` to the parents list of each child in
order. -/
def set_children (s : Store) (selfId : Nat) (cs : List Nat) : Store :=
  let s1 := upd s selfId { s selfId with children := cs }
  cs.foldl (fun st ch => upd st ch { st ch with parents := (st ch).parents ++ [selfId] }) s1

/-- The `spouse` property setter: `self._spouse = spouse` then
`spouse._spouse = self`, in that order. -/
def set_spouse (s : Store) (selfId other : Nat) : Store :=
  let s1 := upd s selfId { s selfId with spouse := some other }
  upd s1 other { s1 other with spouse := some selfId }

/-- A person object that no id of interest maps to (ids outside the seed
dataset): freshly constructed, no links. -/
def blankPerson : Person := mkLiving "" { year := 1, month := 1, day := 1 }

/-- The eight seed persons before any linking, at ids 0..7 in creation
order: Cornelia, Otto, Anna, Raj, Maria, Hans, Lucas (child1),
Emma (child2). -/
def seedBase : Store := fun i =>
  match i with
  | 0 => mkLiving "Cornelia Emmersohn" { year := 1968, month := 5, day := 20 }
  | 1 => mkDeceased "Otto Emmersohn" { year := 1965, month := 8, day := 15 }
        { year := 2020, month := 4, day := 10 }
  | 2 => mkDeceased "Anna Singh" { year := 1945, month := 4, day := 10 }
        { year := 2015, month := 3, day := 20 }
  | 3 => mkDeceased "Raj Singh" { year := 1942, month := 6, day := 5 }
        { year := 2010, month := 11, day := 5 }
  | 4 => mkDeceased "Maria MÃ¼ller" { year := 1943, month := 6, day := 5 }
        { year := 2005, month := 9, day := 15 }
  | 5 => mkDeceased "Hans Emmersohn" { year := 1940, month := 3, day := 22 }
        { year := 2012, month := 7, day := 10 }
  | 6 => mkLiving "Lucas Emmersohn" { year := 1992, month := 11, day := 12 }
  | 7 => mkLiving "Emma Emmersohn" { year := 1995, month := 2, day := 28 }
  | _ => blankPerson

/-- The seed construction sequence of the source, in order:
`cornelia.set_parents([anna, raj])`, `otto.set_parents([maria, hans])`,
`cornelia.set_children([child1, child2])`,
`otto.set_children([child1, child2])`, `cornelia.spouse = otto`. -/
def seedStore : Store :=
  set_spouse
    (set_children
      (set_children
        (set_parents (set_parents seedBase 0 [2, 3]) 1 [4, 5])
        0 [6, 7])
      1 [6, 7])
    0 1

/-- `family_tree.members`: the registry dict, as its ids in insertion
order (keys are the stored names, unique in the seed). -/
def seedRegistry : List Nat := [0, 1, 2, 3, 4, 5, 6, 7]

/-- Python `set.add`: append an id unless already present. -/
def listInsert (acc : List Nat) (x : Nat) : List Nat :=
  if x ∈ acc then acc else acc ++ [x]

/-- Python `set.update(xs)`: add each element of `xs` in order. -/
def listUnion (acc : List Nat) (xs : List Nat) : List Nat :=
  xs.foldl listInsert acc

/-- `FamilyTree.find_parents`: `return person.parents`. -/
def find_parents (s : Store) (p : Nat) : List Nat :=
  (s p).parents

/-- `FamilyTree.find_grandparents`: the `grandparents.extend` loop over
the parents of each parent. -/
def find_grandparents (s : Store) (p : Nat) : List Nat :=
  (s p).parents.foldl (fun acc par => acc ++ (s par).parents) []

/-- `FamilyTree.find_siblings`: `siblings = set()`, then
`siblings.update(parent.children)` for each parent, then
`siblings.discard(person)`; `list(siblings)` keeps the set content
(order unspecified in Python; here first-insertion order). -/
def find_siblings (s : Store) (p : Nat) : List Nat :=
  ((s p).parents.foldl (fun acc par => listUnion acc (s par).children) []).filter
    (fun q => q ≠ p)

/-- `FamilyTree.find_cousins`: `cousins = []`, then for each parent and
each sibling of that parent, `cousins.extend(sibling.children)`. -/
def find_cousins (s : Store) (p : Nat) : List Nat :=
  (s p).parents.foldl
    (fun acc par => (find_siblings s par).foldl (fun acc2 sib => acc2 ++ (s sib).children) acc)
    []

/-- `FamilyTree.find_immediate_family`: a set updated with parents,
siblings, the spouse when present (`if person.spouse:`), and children. -/
def find_immediate_family (s : Store) (p : Nat) : List Nat :=
  let f1 := listUnion [] (s p).parents
  let f2 := listUnion f1 (find_siblings s p)
  let f3 := match (s p).spouse with
    | some sp => listInsert f2 sp
    | none => f2
  listUnion f3 (s p).children

/-- `FamilyTree.find_extended_family`: a set updated with the immediate
family, then for each parent and each sibling of that parent (aunt or
uncle) the sibling itself and that sibling's children (cousins); the
final list comprehension keeps only `LivingPerson` instances. -/
def find_extended_family (s : Store) (p : Nat) : List Nat :=
  let e1 := listUnion [] (find_immediate_family s p)
  let e2 := (s p).parents.foldl
    (fun acc par =>
      (find_siblings s par).foldl (fun acc2 sib => listUnion (listInsert acc2 sib) (s sib).children) acc)
    e1
  e2.filter (fun q => (s q).isLiving)

/-- `FamilyTree.get_person(name)`: `self.members.get(name, None)`; the
dict maps each stored name to its person, so lookup is the first (and,
names being unique keys, only) registry entry with that name. -/
def get_person (s : Store) (reg : List Nat) (name : String) : Option Nat :=
  reg.find? (fun i => (s i).name == name)

/-- Zero-pad a number to two digits, as `str(date)` does for month and
day. -/
def pad2 (n : Nat) : String :=
  if n < 10 then "0" ++ toString n else toString n

/-- Zero-pad a year to four digits, as `str(date)` does. -/
def pad4 (n : Nat) : String :=
  if n < 10 then "000" ++ toString n
  else if n < 100 then "00" ++ toString n
  else if n < 1000 then "0" ++ toString n
  else toString n

/-- `str(date)`: ISO format `YYYY-MM-DD`. -/
def PDate.toIso (d : PDate) : String :=
  pad4 d.year ++ "-" ++ pad2 d.month ++ "-" ++ pad2 d.day

/-- Polymorphic `display_details`: the `LivingPerson` and
`DeceasedPerson` overrides. -/
def Person.display_details (p : Person) : String :=
  match p.variant with
  | Variant.living =>
      "Name: " ++ p.name ++ ", Birth Date: " ++ p.birth_date.toIso ++ " (Alive)"
  | Variant.deceased dd =>
      "Name: " ++ p.name ++ ", Birth Date: " ++ p.birth_date.toIso
        ++ ", Death Date: " ++ dd.toIso

/-- `FamilyTree.get_member_details(name)`: display the person when found,
the fixed message otherwise. -/
def get_member_details (s : Store) (reg : List Nat) (name : String) : String :=
  match get_person s reg name with
  | some i => (s i).display_details
  | none => "Person not found."

/-- The `(month, day)` key of the birthday calendar. -/
def birthKey (p : Person) : Nat × Nat :=
  (p.birth_date.month, p.birth_date.day)

/-- One step of the `defaultdict(list)` grouping:
`birthday_calendar[key].append(name)` appends to the existing group or
opens a new group at the end (dict insertion order). -/
def insertCal (cal : List ((Nat × Nat) × List String)) (k : Nat × Nat) (n : String) :
    List ((Nat × Nat) × List String) :=
  match cal with
  | [] => [(k, [n])]
  | (k1, g) :: rest =>
      if k1 = k then (k1, g ++ [n]) :: rest else (k1, g) :: insertCal rest k n

/-- The grouping loop of `get_birthdays_calendar` over the registry in
iteration order (the `if person.birth_date:` guard is always true: a
`date` object is truthy). -/
def buildCal (s : Store) (reg : List Nat) : List ((Nat × Nat) × List String) :=
  reg.foldl (fun cal i => insertCal cal (birthKey (s i)) (s i).name) []

/-- Ascending order on `(month, day)` keys: Python tuple comparison. -/
def keyLe (a b : (Nat × Nat) × List String) : Prop :=
  a.1.1 < b.1.1 ∨ (a.1.1 = b.1.1 ∧ a.1.2 ≤ b.1.2)

instance keyLeDecidable : DecidableRel keyLe := fun a b => by
  unfold keyLe; infer_instance

instance keyLeTotal : IsTotal ((Nat × Nat) × List String) keyLe :=
  ⟨fun a b => by unfold keyLe; omega⟩

instance keyLeTrans : IsTrans ((Nat × Nat) × List String) keyLe :=
  ⟨fun a b c hab hbc => by unfold keyLe at hab hbc ⊢; omega⟩

/-- `FamilyTree.get_birthdays_calendar`: group, then
`dict(sorted(birthday_calendar.items()))` sorts the entries by key. -/
def get_birthdays_calendar (s : Store) (reg : List Nat) :
    List ((Nat × Nat) × List String) :=
  (buildCal s reg).insertionSort keyLe

/-- The group of names filed under key `k`, empty when the key is
absent. -/
def groupOf (cal : List ((Nat × Nat) × List String)) (k : Nat × Nat) : List String :=
  match cal.find? (fun e => e.1 = k) with
  | some e => e.2
  | none => []

/-- `FamilyTree.calculate_average_age`: sum and count age at death over
deceased members only, return `total / count` (float true division, here
exact in `ℚ`) or `0` when no member is deceased. -/
def calculate_average_age (s : Store) (reg : List Nat) : ℚ :=
  let tc := reg.foldl
    (fun (tc : Int × Nat) i =>
      if (s i).isDeceased then (tc.1 + (s i).ageAtDeath, tc.2 + 1) else tc)
    (0, 0)
  if tc.2 > 0 then (tc.1 : ℚ) / (tc.2 : ℚ) else 0

/-- The deceased members of a registry, in iteration order. -/
def deceasedMembers (s : Store) (reg : List Nat) : List Nat :=
  reg.filter (fun i => (s i).isDeceased)

/-- Spouse symmetry: whenever some person records a spouse, that spouse
records them back. -/
def SpouseSymmetric (s : Store) : Prop :=
  ∀ x y : Nat, (s x).spouse = some y → (s y).spouse = some x

/-!
State-threaded versions of the six relationship resolvers: every
attribute read goes through the current store and the store is threaded
through each loop and helper call, exactly as the Python interpreter
would evaluate the method bodies.  The methods contain no writes, which
the purity theorem makes explicit by proving the threaded store comes
back unchanged and the result equals the read-only function.
-/

/-- `find_parents`, threaded. -/
def find_parents_st (s : Store) (p : Nat) : List Nat × Store :=
  ((s p).parents, s)

/-- `find_grandparents`, threaded through its `extend` loop. -/
def find_grandparents_st (s : Store) (p : Nat) : List Nat × Store :=
  (s p).parents.foldl (fun acc par => (acc.1 ++ (acc.2 par).parents, acc.2)) ([], s)

/-- `find_siblings`, threaded through its `update` loop and the final
`discard`. -/
def find_siblings_st (s : Store) (p : Nat) : List Nat × Store :=
  let r := (s p).parents.foldl
    (fun acc par => (listUnion acc.1 (acc.2 par).children, acc.2)) ([], s)
  (r.1.filter (fun q => q ≠ p), r.2)

/-- `find_cousins`, threaded through both loops and the nested
`find_siblings` call. -/
def find_cousins_st (s : Store) (p : Nat) : List Nat × Store :=
  (s p).parents.foldl
    (fun acc par =>
      let sibs := find_siblings_st acc.2 par
      sibs.1.foldl (fun acc2 sib => (acc2.1 ++ (acc2.2 sib).children, acc2.2))
        (acc.1, sibs.2))
    ([], s)

/-- `find_immediate_family`, threaded through its updates and the nested
`find_siblings` call. -/
def find_immediate_family_st (s : Store) (p : Nat) : List Nat × Store :=
  let f1 := listUnion [] (s p).parents
  let sibs := find_siblings_st s p
  let f2 := listUnion f1 sibs.1
  let f3 := match (sibs.2 p).spouse with
    | some sp => listInsert f2 sp
    | none => f2
  (listUnion f3 ((sibs.2 p)).children, sibs.2)

/-- `find_extended_family`, threaded through the nested calls, both
loops, and the final filtering comprehension. -/
def find_extended_family_st (s : Store) (p : Nat) : List Nat × Store :=
  let imm := find_immediate_family_st s p
  let e1 := listUnion [] imm.1
  let r := ((imm.2 p).parents).foldl
    (fun acc par =>
      let sibs := find_siblings_st acc.2 par
      sibs.1.foldl
        (fun acc2 sib => (listUnion (listInsert acc2.1 sib) ((acc2.2 sib)).children, acc2.2))
        (acc.1, sibs.2))
    (e1, imm.2)
  (r.1.filter (fun q => ((r.2 q)).isLiving), r.2)

/-- A six-person store exercising overlapping sibling sets: 0 is parent
of 1, 2 and 3; person 4 has parents 1 and 2 (who are siblings of each
other and of 3); 3 has child 5.  Built with the linking operations. -/
def dupStore : Store :=
  set_children
    (set_children
      (set_parents (fun _ => blankPerson) 4 [1, 2])
      0 [1, 2, 3])
    3 [5]

/-!  Helper lemmas about the Python-set model.  -/

theorem mem_listInsert (acc : List Nat) (x q : Nat) :
    q ∈ listInsert acc x ↔ q ∈ acc ∨ q = x := by
  unfold listInsert
  split
  · constructor
    · exact fun h => Or.inl h
    · rintro (h | h)
      · exact h
      · subst h; assumption
  · simp [List.mem_append]

theorem mem_listUnion (xs : List Nat) : ∀ (acc : List Nat) (q : Nat),
    q ∈ listUnion acc xs ↔ q ∈ acc ∨ q ∈ xs := by
  induction xs with
  | nil => intro acc q; simp [listUnion]
  | cons x xs ih =>
      intro acc q
      show q ∈ listUnion (listInsert acc x) xs ↔ _
      rw [ih, mem_listInsert]
      simp [List.mem_cons]
      tauto

theorem nodup_listInsert (acc : List Nat) (x : Nat) (h : acc.Nodup) :
    (listInsert acc x).Nodup := by
  unfold listInsert
  split
  · exact h
  · simp_all [List.nodup_append]

theorem nodup_listUnion (xs : List Nat) : ∀ (acc : List Nat), acc.Nodup →
    (listUnion acc xs).Nodup := by
  induction xs with
  | nil => intro acc h; exact h
  | cons x xs ih => intro acc h; exact ih _ (nodup_listInsert acc x h)

theorem mem_foldl_listUnion (f : Nat → List Nat) (q : Nat) :
    ∀ (ps acc : List Nat),
    q ∈ ps.foldl (fun a x => listUnion a (f x)) acc ↔ q ∈ acc ∨ ∃ x ∈ ps, q ∈ f x := by
  intro ps
  induction ps with
  | nil => intro acc; simp
  | cons x xs ih =>
      intro acc
      rw [List.foldl_cons, ih, mem_listUnion]
      constructor
      · rintro ((h | h) | ⟨y, hy, hq⟩)
        · exact Or.inl h
        · exact Or.inr ⟨x, List.mem_cons_self x xs, h⟩
        · exact Or.inr ⟨y, List.mem_cons_of_mem x hy, hq⟩
      · rintro (h | ⟨y, hy, hq⟩)
        · exact Or.inl (Or.inl h)
        · rcases List.mem_cons.mp hy with h1 | h1
          · subst h1; exact Or.inl (Or.inr hq)
          · exact Or.inr ⟨y, h1, hq⟩

theorem nodup_foldl_listUnion (f : Nat → List Nat) :
    ∀ (ps acc : List Nat), acc.Nodup →
    (ps.foldl (fun a x => listUnion a (f x)) acc).Nodup := by
  intro ps
  induction ps with
  | nil => intro acc h; exact h
  | cons x xs ih => intro acc h; exact ih _ (nodup_listUnion (f x) acc h)

theorem mem_find_siblings (s : Store) (p q : Nat) :
    q ∈ find_siblings s p ↔ (∃ par ∈ (s p).parents, q ∈ (s par).children) ∧ q ≠ p := by
  unfold find_siblings
  rw [List.mem_filter]
  rw [mem_foldl_listUnion (fun par => (s par).children) q (s p).parents []]
  simp

theorem nodup_find_siblings (s : Store) (p : Nat) : (find_siblings s p).Nodup := by
  unfold find_siblings
  exact List.Nodup.filter _
    (nodup_foldl_listUnion (fun par => (s par).children) (s p).parents [] List.nodup_nil)

theorem self_not_mem_find_siblings (s : Store) (p : Nat) : p ∉ find_siblings s p := by
  intro h
  exact ((mem_find_siblings s p p).mp h).2 rfl

theorem mem_foldl_addSibCousins (C : Nat → List Nat) (q : Nat) :
    ∀ (sibs a : List Nat),
    q ∈ sibs.foldl (fun a2 sib => listUnion (listInsert a2 sib) (C sib)) a ↔
      q ∈ a ∨ ∃ sib ∈ sibs, q = sib ∨ q ∈ C sib := by
  intro sibs
  induction sibs with
  | nil => intro a; simp
  | cons x xs ih =>
      intro a
      rw [List.foldl_cons, ih, mem_listUnion, mem_listInsert]
      constructor
      · rintro (((h | h) | h) | ⟨y, hy, hq⟩)
        · exact Or.inl h
        · exact Or.inr ⟨x, List.mem_cons_self x xs, Or.inl h⟩
        · exact Or.inr ⟨x, List.mem_cons_self x xs, Or.inr h⟩
        · exact Or.inr ⟨y, List.mem_cons_of_mem x hy, hq⟩
      · rintro (h | ⟨y, hy, hq⟩)
        · exact Or.inl (Or.inl (Or.inl h))
        · rcases List.mem_cons.mp hy with h1 | h1
          · subst h1
            rcases hq with h2 | h2
            · exact Or.inl (Or.inl (Or.inr h2))
            · exact Or.inl (Or.inr h2)
          · exact Or.inr ⟨y, h1, hq⟩

theorem mem_foldl_extLoop (L C : Nat → List Nat) (q : Nat) :
    ∀ (ps acc : List Nat),
    q ∈ ps.foldl
        (fun a par => (L par).foldl (fun a2 sib => listUnion (listInsert a2 sib) (C sib)) a)
        acc ↔
      q ∈ acc ∨ ∃ par ∈ ps, ∃ sib ∈ L par, q = sib ∨ q ∈ C sib := by
  intro ps
  induction ps with
  | nil => intro acc; simp
  | cons x xs ih =>
      intro acc
      rw [List.foldl_cons, ih, mem_foldl_addSibCousins]
      constructor
      · rintro ((h | ⟨y, hy, hq⟩) | ⟨z, hz, y, hy, hq⟩)
        · exact Or.inl h
        · exact Or.inr ⟨x, List.mem_cons_self x xs, y, hy, hq⟩
        · exact Or.inr ⟨z, List.mem_cons_of_mem x hz, y, hy, hq⟩
      · rintro (h | ⟨z, hz, y, hy, hq⟩)
        · exact Or.inl (Or.inl h)
        · rcases List.mem_cons.mp hz with h1 | h1
          · subst h1; exact Or.inl (Or.inr ⟨y, hy, hq⟩)
          · exact Or.inr ⟨z, h1, y, hy, hq⟩

theorem mem_find_extended_family (s : Store) (p q : Nat) :
    q ∈ find_extended_family s p ↔
      (q ∈ find_immediate_family s p ∨
        ∃ par ∈ (s p).parents, ∃ sib ∈ find_siblings s par, q = sib ∨ q ∈ (s sib).children) ∧
      (s q).isLiving = true := by
  unfold find_extended_family
  rw [List.mem_filter]
  rw [mem_foldl_extLoop (fun par => find_siblings s par) (fun sib => (s sib).children) q
    (s p).parents (listUnion [] (find_immediate_family s p))]
  rw [mem_listUnion]
  simp

theorem foldl_append_eq_flatMap (f : Nat → List Nat) :
    ∀ (l acc : List Nat), l.foldl (fun a x => a ++ f x) acc = acc ++ l.flatMap f := by
  intro l
  induction l with
  | nil => intro acc; simp
  | cons x xs ih =>
      intro acc
      rw [List.foldl_cons, ih]
      simp

theorem foldl_step_eq_flatMap (F : Nat → List Nat)
    (step : List Nat → Nat → List Nat) (hstep : ∀ a x, step a x = a ++ F x) :
    ∀ (l acc : List Nat), l.foldl step acc = acc ++ l.flatMap F := by
  intro l
  induction l with
  | nil => intro acc; simp
  | cons x xs ih =>
      intro acc
      rw [List.foldl_cons, hstep, ih]
      simp

theorem find_cousins_eq_flatMap (s : Store) (p : Nat) :
    find_cousins s p =
      (s p).parents.flatMap
        (fun par => (find_siblings s par).flatMap (fun sib => (s sib).children)) := by
  unfold find_cousins
  rw [foldl_step_eq_flatMap
    (fun par => (find_siblings s par).flatMap (fun sib => (s sib).children))
    _ (fun a par => foldl_append_eq_flatMap (fun sib => (s sib).children) (find_siblings s par) a)
    (s p).parents []]
  simp

theorem find_grandparents_eq_flatMap (s : Store) (p : Nat) :
    find_grandparents s p = (s p).parents.flatMap (fun par => (s par).parents) := by
  unfold find_grandparents
  rw [foldl_append_eq_flatMap (fun par => (s par).parents) (s p).parents []]
  simp

theorem mem_find_immediate_family (s : Store) (p q : Nat) :
    q ∈ find_immediate_family s p ↔
      q ∈ (s p).parents ∨ q ∈ find_siblings s p ∨ (s p).spouse = some q ∨
        q ∈ (s p).children := by
  unfold find_immediate_family
  cases h : (s p).spouse with
  | none =>
      simp only [h]
      rw [mem_listUnion, mem_listUnion, mem_listUnion]
      simp
      tauto
  | some sp =>
      simp only [h]
      rw [mem_listUnion, mem_listInsert, mem_listUnion, mem_listUnion]
      simp [eq_comm]
      tauto

theorem foldl_state_inv (step : List Nat × Store → Nat → List Nat × Store)
    (g : Store → List Nat → Nat → List Nat)
    (h : ∀ (a : List Nat) (st : Store) (x : Nat), step (a, st) x = (g st a x, st)) :
    ∀ (l a : List Nat) (s : Store), l.foldl step (a, s) = (l.foldl (g s) a, s) := by
  intro l
  induction l with
  | nil => intro a s; rfl
  | cons x xs ih =>
      intro a s
      rw [List.foldl_cons, h, List.foldl_cons, ih]

theorem find_parents_st_eq (s : Store) (p : Nat) :
    find_parents_st s p = (find_parents s p, s) := rfl

theorem find_grandparents_st_eq (s : Store) (p : Nat) :
    find_grandparents_st s p = (find_grandparents s p, s) := by
  unfold find_grandparents_st find_grandparents
  exact foldl_state_inv _ (fun st a par => a ++ (st par).parents)
    (fun a st x => rfl) (s p).parents [] s

theorem find_siblings_st_eq (s : Store) (p : Nat) :
    find_siblings_st s p = (find_siblings s p, s) := by
  unfold find_siblings_st find_siblings
  rw [foldl_state_inv _ (fun st a par => listUnion a (st par).children)
    (fun a st x => rfl) (s p).parents [] s]

theorem find_cousins_st_eq (s : Store) (p : Nat) :
    find_cousins_st s p = (find_cousins s p, s) := by
  unfold find_cousins_st find_cousins
  exact foldl_state_inv _
    (fun st a par => (find_siblings st par).foldl (fun a2 sib => a2 ++ (st sib).children) a)
    (fun a st x => by
      show (let sibs := find_siblings_st st x
        sibs.1.foldl (fun acc2 sib => (acc2.1 ++ (acc2.2 sib).children, acc2.2)) (a, sibs.2)) = _
      rw [find_siblings_st_eq]
      exact foldl_state_inv _ (fun st2 a2 sib => a2 ++ (st2 sib).children)
        (fun a2 st2 y => rfl) (find_siblings st x) a st)
    (s p).parents [] s

theorem find_immediate_family_st_eq (s : Store) (p : Nat) :
    find_immediate_family_st s p = (find_immediate_family s p, s) := by
  unfold find_immediate_family_st find_immediate_family
  rw [find_siblings_st_eq]

theorem find_extended_family_st_eq (s : Store) (p : Nat) :
    find_extended_family_st s p = (find_extended_family s p, s) := by
  have hfold := foldl_state_inv
    (fun acc par =>
      let sibs := find_siblings_st acc.2 par
      sibs.1.foldl
        (fun acc2 sib => (listUnion (listInsert acc2.1 sib) ((acc2.2 sib)).children, acc2.2))
        (acc.1, sibs.2))
    (fun st a par =>
      (find_siblings st par).foldl (fun a2 sib => listUnion (listInsert a2 sib) (st sib).children) a)
    (fun a st x => by
      show (let sibs := find_siblings_st st x
        sibs.1.foldl
          (fun acc2 sib => (listUnion (listInsert acc2.1 sib) ((acc2.2 sib)).children, acc2.2))
          (a, sibs.2)) = _
      rw [find_siblings_st_eq]
      exact foldl_state_inv _
        (fun st2 a2 sib => listUnion (listInsert a2 sib) (st2 sib).children)
        (fun a2 st2 y => rfl) (find_siblings st x) a st)
    ((s p).parents) (listUnion [] (find_immediate_family s p)) s
  unfold find_extended_family_st find_extended_family
  simp only [find_immediate_family_st_eq]
  rw [hfold]

theorem foldl_preserves_spouse (step : Store → Nat → Store)
    (h : ∀ (st : Store) (y x : Nat), ((step st y) x).spouse = (st x).spouse) :
    ∀ (l : List Nat) (st : Store) (x : Nat),
    ((l.foldl step st) x).spouse = (st x).spouse := by
  intro l
  induction l with
  | nil => intro st x; rfl
  | cons y ys ih => intro st x; rw [List.foldl_cons, ih, h]

theorem spouse_upd_children (st : Store) (y x : Nat) (cs : List Nat) :
    ((upd st y { st y with children := cs }) x).spouse = (st x).spouse := by
  unfold upd
  split
  · next h => subst h; rfl
  · rfl

theorem spouse_upd_parents (st : Store) (y x : Nat) (ps : List Nat) :
    ((upd st y { st y with parents := ps }) x).spouse = (st x).spouse := by
  unfold upd
  split
  · next h => subst h; rfl
  · rfl

theorem spouse_set_parents (s : Store) (i : Nat) (ps : List Nat) (x : Nat) :
    ((set_parents s i ps) x).spouse = (s x).spouse := by
  unfold set_parents
  rw [foldl_preserves_spouse _ (fun st y x2 => spouse_upd_children st y x2 _),
    spouse_upd_parents]

theorem spouse_set_children (s : Store) (i : Nat) (cs : List Nat) (x : Nat) :
    ((set_children s i cs) x).spouse = (s x).spouse := by
  unfold set_children
  rw [foldl_preserves_spouse _ (fun st y x2 => spouse_upd_parents st y x2 _),
    spouse_upd_children]

theorem seedBase_spouse (x : Nat) : (seedBase x).spouse = none := by
  match x with
  | 0 => rfl
  | 1 => rfl
  | 2 => rfl
  | 3 => rfl
  | 4 => rfl
  | 5 => rfl
  | 6 => rfl
  | 7 => rfl
  | n + 8 => rfl

theorem seedStore_spouse (x : Nat) :
    (seedStore x).spouse = if x = 1 then some 0 else if x = 0 then some 1 else none := by
  unfold seedStore set_spouse
  by_cases h1 : x = 1
  · subst h1; simp [upd]
  · by_cases h0 : x = 0
    · subst h0; simp [upd]
    · simp only [upd, h1, h0, if_neg, if_false]
      rw [spouse_set_children, spouse_set_children, spouse_set_parents, spouse_set_parents,
        seedBase_spouse]

theorem seedStore_spouseSymmetric : SpouseSymmetric seedStore := by
  intro x y h
  rw [seedStore_spouse] at h
  split_ifs at h with h1 h0
  · subst h1
    cases h
    rw [seedStore_spouse]
    rfl
  · subst h0
    cases h
    rw [seedStore_spouse]
    rfl

theorem foldl_append_child_mem (i : Nat) :
    ∀ (l : List Nat) (st : Store) (par : Nat),
    (par ∈ l ∨ i ∈ (st par).children) →
    i ∈ ((l.foldl
      (fun st2 y => upd st2 y { st2 y with children := (st2 y).children ++ [i] }) st) par).children := by
  intro l
  induction l with
  | nil =>
      intro st par h
      rcases h with h | h
      · cases h
      · exact h
  | cons x xs ih =>
      intro st par h
      rw [List.foldl_cons]
      by_cases hx : par = x
      · subst hx
        exact ih _ par (Or.inr (by simp [upd]))
      · rcases h with h | h
        · rcases List.mem_cons.mp h with h1 | h1
          · exact absurd h1 hx
          · exact ih _ par (Or.inl h1)
        · refine ih _ par (Or.inr ?_)
          simp [upd, hx]
          exact h

theorem foldl_append_parent_mem (i : Nat) :
    ∀ (l : List Nat) (st : Store) (ch : Nat),
    (ch ∈ l ∨ i ∈ (st ch).parents) →
    i ∈ ((l.foldl
      (fun st2 y => upd st2 y { st2 y with parents := (st2 y).parents ++ [i] }) st) ch).parents := by
  intro l
  induction l with
  | nil =>
      intro st ch h
      rcases h with h | h
      · cases h
      · exact h
  | cons x xs ih =>
      intro st ch h
      rw [List.foldl_cons]
      by_cases hx : ch = x
      · subst hx
        exact ih _ ch (Or.inr (by simp [upd]))
      · rcases h with h | h
        · rcases List.mem_cons.mp h with h1 | h1
          · exact absurd h1 hx
          · exact ih _ ch (Or.inl h1)
        · refine ih _ ch (Or.inr ?_)
          simp [upd, hx]
          exact h

theorem set_parents_establishes (s : Store) (i : Nat) (ps : List Nat) (par : Nat)
    (h : par ∈ ps) : i ∈ ((set_parents s i ps) par).children := by
  unfold set_parents
  exact foldl_append_child_mem i ps _ par (Or.inl h)

theorem set_children_establishes (s : Store) (i : Nat) (cs : List Nat) (ch : Nat)
    (h : ch ∈ cs) : i ∈ ((set_children s i cs) ch).parents := by
  unfold set_children
  exact foldl_append_parent_mem i cs _ ch (Or.inl h)

theorem insertCal_keys (k : Nat × Nat) (n : String) :
    ∀ (cal : List ((Nat × Nat) × List String)),
    (insertCal cal k n).map Prod.fst =
      if k ∈ cal.map Prod.fst then cal.map Prod.fst else cal.map Prod.fst ++ [k] := by
  intro cal
  induction cal with
  | nil => simp [insertCal]
  | cons e rest ih =>
      rcases e with ⟨k1, g⟩
      unfold insertCal
      by_cases h : k1 = k
      · subst h
        simp
      · simp only [if_neg h, List.map_cons, ih]
        by_cases hm : k ∈ rest.map Prod.fst
        · rw [if_pos hm, if_pos (by simp [hm])]
        · rw [if_neg hm, if_neg (by simp [hm, Ne.symm h])]
          simp

theorem insertCal_keys_nodup (k : Nat × Nat) (n : String)
    (cal : List ((Nat × Nat) × List String)) (h : (cal.map Prod.fst).Nodup) :
    ((insertCal cal k n).map Prod.fst).Nodup := by
  rw [insertCal_keys]
  split
  · exact h
  · next hm => simp [List.nodup_append, h, hm]

theorem foldl_insertCal_keys_nodup (s : Store) :
    ∀ (reg : List Nat) (cal : List ((Nat × Nat) × List String)),
    (cal.map Prod.fst).Nodup →
    ((reg.foldl (fun c i => insertCal c (birthKey (s i)) (s i).name) cal).map Prod.fst).Nodup := by
  intro reg
  induction reg with
  | nil => intro cal h; exact h
  | cons i rest ih =>
      intro cal h
      exact ih _ (insertCal_keys_nodup _ _ cal h)

theorem buildCal_keys_nodup (s : Store) (reg : List Nat) :
    ((buildCal s reg).map Prod.fst).Nodup :=
  foldl_insertCal_keys_nodup s reg [] List.nodup_nil

theorem groupOf_insertCal (k1 k : Nat × Nat) (n : String) :
    ∀ (cal : List ((Nat × Nat) × List String)),
    groupOf (insertCal cal k1 n) k =
      if k1 = k then groupOf cal k ++ [n] else groupOf cal k := by
  intro cal
  induction cal with
  | nil =>
      unfold insertCal groupOf
      by_cases h : k1 = k
      · subst h; simp [List.find?]
      · simp [List.find?, h]
  | cons e rest ih =>
      rcases e with ⟨k2, g⟩
      unfold insertCal
      by_cases h2 : k2 = k1
      · rw [if_pos h2]
        by_cases hk : k2 = k
        · rw [if_pos (h2.symm.trans hk)]
          unfold groupOf
          rw [List.find?_cons_of_pos _ (by simp [hk]), List.find?_cons_of_pos _ (by simp [hk])]
        · have hk1 : ¬ k1 = k := fun h => hk (h2.trans h)
          rw [if_neg hk1]
          unfold groupOf
          rw [List.find?_cons_of_neg _ (by simp [hk]), List.find?_cons_of_neg _ (by simp [hk])]
      · rw [if_neg h2]
        by_cases hk : k2 = k
        · have hk1 : ¬ k1 = k := fun h => h2 (hk.trans h.symm)
          rw [if_neg hk1]
          unfold groupOf
          rw [List.find?_cons_of_pos _ (by simp [hk]), List.find?_cons_of_pos _ (by simp [hk])]
        · unfold groupOf
          rw [List.find?_cons_of_neg _ (by simp [hk]), List.find?_cons_of_neg _ (by simp [hk])]
          exact ih

theorem groupOf_foldl_insertCal (s : Store) (k : Nat × Nat) :
    ∀ (reg : List Nat) (cal : List ((Nat × Nat) × List String)),
    groupOf (reg.foldl (fun c i => insertCal c (birthKey (s i)) (s i).name) cal) k =
      groupOf cal k ++
        (reg.filter (fun i => birthKey (s i) = k)).map (fun i => (s i).name) := by
  intro reg
  induction reg with
  | nil => intro cal; simp
  | cons i rest ih =>
      intro cal
      rw [List.foldl_cons, ih, groupOf_insertCal]
      by_cases h : birthKey (s i) = k
      · rw [if_pos h, List.filter_cons_of_pos (by simp [h]), List.map_cons, List.append_assoc]
        rfl
      · rw [if_neg h, List.filter_cons_of_neg (by simp [h])]

theorem find?_key_unique (k : Nat × Nat) (e : (Nat × Nat) × List String) :
    ∀ (cal : List ((Nat × Nat) × List String)), (cal.map Prod.fst).Nodup →
    (cal.find? (fun x => x.1 = k) = some e ↔ e ∈ cal ∧ e.1 = k) := by
  intro cal
  induction cal with
  | nil => intro h; simp
  | cons a rest ih =>
      intro h
      rw [List.map_cons, List.nodup_cons] at h
      by_cases ha : a.1 = k
      · rw [List.find?_cons_of_pos _ (by simp [ha])]
        constructor
        · intro h1
          rw [Option.some.injEq] at h1
          subst h1
          exact ⟨List.mem_cons_self _ _, ha⟩
        · rintro ⟨h1, h2⟩
          rcases List.mem_cons.mp h1 with h3 | h3
          · rw [h3]
          · exfalso
            refine h.1 ?_
            rw [ha, ← h2]
            exact List.mem_map_of_mem Prod.fst h3
      · rw [List.find?_cons_of_neg _ (by simp [ha])]
        rw [ih h.2]
        constructor
        · rintro ⟨h1, h2⟩
          exact ⟨List.mem_cons_of_mem a h1, h2⟩
        · rintro ⟨h1, h2⟩
          rcases List.mem_cons.mp h1 with h3 | h3
          · exact absurd (h3 ▸ h2) ha
          · exact ⟨h3, h2⟩

theorem groupOf_of_perm (cal cal2 : List ((Nat × Nat) × List String))
    (hp : cal.Perm cal2) (hn : (cal.map Prod.fst).Nodup) (k : Nat × Nat) :
    groupOf cal k = groupOf cal2 k := by
  have hn2 : (cal2.map Prod.fst).Nodup := ((hp.map Prod.fst).nodup_iff).mp hn
  cases hc : cal.find? (fun x => x.1 = k) with
  | none =>
      have hall := List.find?_eq_none.mp hc
      have hc2 : cal2.find? (fun x => x.1 = k) = none := by
        rw [List.find?_eq_none]
        intro x hx
        exact hall x (hp.mem_iff.mpr hx)
      unfold groupOf
      rw [hc, hc2]
  | some e =>
      have h1 := (find?_key_unique k e cal hn).mp hc
      have hc2 : cal2.find? (fun x => x.1 = k) = some e :=
        (find?_key_unique k e cal2 hn2).mpr ⟨hp.mem_iff.mp h1.1, h1.2⟩
      unfold groupOf
      rw [hc, hc2]

theorem birthdays_calendar_sorted (s : Store) (reg : List Nat) :
    List.Sorted keyLe (get_birthdays_calendar s reg) :=
  List.sorted_insertionSort keyLe (buildCal s reg)

theorem birthdays_calendar_keys_nodup (s : Store) (reg : List Nat) :
    ((get_birthdays_calendar s reg).map Prod.fst).Nodup :=
  (((List.perm_insertionSort keyLe (buildCal s reg)).map Prod.fst).nodup_iff).mpr
    (buildCal_keys_nodup s reg)

theorem birthdays_calendar_groupOf (s : Store) (reg : List Nat) (k : Nat × Nat) :
    groupOf (get_birthdays_calendar s reg) k =
      (reg.filter (fun i => birthKey (s i) = k)).map (fun i => (s i).name) := by
  unfold get_birthdays_calendar
  rw [← groupOf_of_perm (buildCal s reg) ((buildCal s reg).insertionSort keyLe)
    (List.perm_insertionSort keyLe (buildCal s reg)).symm (buildCal_keys_nodup s reg) k]
  unfold buildCal
  rw [groupOf_foldl_insertCal]
  rfl

theorem foldl_avg_eq (s : Store) :
    ∀ (reg : List Nat) (t : Int) (c : Nat),
    reg.foldl
      (fun (tc : Int × Nat) i =>
        if (s i).isDeceased then (tc.1 + (s i).ageAtDeath, tc.2 + 1) else tc)
      (t, c) =
    (t + ((deceasedMembers s reg).map (fun i => (s i).ageAtDeath)).sum,
      c + (deceasedMembers s reg).length) := by
  intro reg
  induction reg with
  | nil => intro t c; simp [deceasedMembers]
  | cons i rest ih =>
      intro t c
      rw [List.foldl_cons]
      by_cases h : (s i).isDeceased
      · rw [if_pos h, ih]
        unfold deceasedMembers
        simp only [List.filter_cons, h, if_true, List.map_cons, List.sum_cons,
          List.length_cons, Prod.ext_iff]
        constructor <;> omega
      · rw [if_neg h, ih]
        unfold deceasedMembers
        rw [List.filter_cons]
        rw [if_neg (by simp [h])]

theorem calculate_average_age_eq (s : Store) (reg : List Nat) :
    calculate_average_age s reg =
      if deceasedMembers s reg = [] then 0
      else (((deceasedMembers s reg).map (fun i => (s i).ageAtDeath)).sum : ℚ) /
        ((deceasedMembers s reg).length : ℚ) := by
  unfold calculate_average_age
  rw [foldl_avg_eq s reg 0 0]
  by_cases h : deceasedMembers s reg = []
  · rw [if_pos h, h]
    simp
  · rw [if_neg h]
    have hlen : 0 < (deceasedMembers s reg).length := List.length_pos.mpr h
    rw [if_pos (by simpa using hlen)]
    push_cast
    simp

/-- C1: for every person, `find_extended_family` is exactly the union of
the immediate family with each parent's siblings (aunts/uncles) and
those siblings' children (cousins), filtered to living persons — so
every member of the result is a `LivingPerson` and no deceased person
ever appears — while `find_immediate_family` applies no such filter: in
the seed data the deceased Anna (id 2) is in Cornelia's immediate
family. -/
theorem extended_family_only_living :
    (∀ (s : Store) (p q : Nat),
      q ∈ find_extended_family s p ↔
        (q ∈ find_immediate_family s p ∨
          ∃ par ∈ (s p).parents, ∃ sib ∈ find_siblings s par,
            q = sib ∨ q ∈ (s sib).children) ∧
        (s q).isLiving = true) ∧
    ((seedStore 2).isDeceased = true ∧ 2 ∈ find_immediate_family seedStore 0) :=
  ⟨fun s p q => mem_find_extended_family s p q, by decide, by decide⟩

/-- C1 witness: Cornelia (id 0, living) is in the extended family of
Lucas (id 6), and the theorem certifies she is living. -/
theorem extended_family_only_living_witness :
    0 ∈ find_extended_family seedStore 6 ∧ (seedStore 0).isLiving = true :=
  ⟨by decide, ((extended_family_only_living.1 seedStore 6 0).mp (by decide)).2⟩

/-- C2 counterexample: spouse symmetry does not survive every sequence
of link-establishing operations.  Extending the seed construction with
one further spouse-setting call, `set_spouse seedStore 0 2`, leaves
person 1 recording spouse 0 while person 0 records spouse 2 — person 1
has a spouse whose spouse is not person 1. -/
theorem spouse_symmetry_sequence_counterexample :
    (set_spouse seedStore 0 2 1).spouse = some 0 ∧
    ¬ (set_spouse seedStore 0 2 0).spouse = some 1 := by
  decide

/-- C2 (amended): a single call to the spouse setter always leaves both
sides linked (`a.spouse = b` and `b.spouse = a` after `set_spouse s a b`),
and spouse symmetry holds for the registry as constructed by the seed
sequence; it is not an invariant of arbitrary operation sequences. -/
theorem set_spouse_links_both_sides :
    (∀ (s : Store) (a b : Nat),
      ((set_spouse s a b) a).spouse = some b ∧ ((set_spouse s a b) b).spouse = some a) ∧
    SpouseSymmetric seedStore := by
  constructor
  · intro s a b
    by_cases h : a = b
    · subst h
      constructor <;> simp [set_spouse, upd]
    · constructor
      · simp [set_spouse, upd, h]
      · simp [set_spouse, upd]
  · exact seedStore_spouseSymmetric

/-- C2 witness: one concrete call links both sides, and the symmetry of
the seed store yields Otto's back-link to Cornelia from her link to
him. -/
theorem set_spouse_links_both_sides_witness :
    ((set_spouse seedStore 4 5) 4).spouse = some 5 ∧ (seedStore 1).spouse = some 0 :=
  ⟨(set_spouse_links_both_sides.1 seedStore 4 5).1,
    set_spouse_links_both_sides.2 0 1 (by decide)⟩

/-- C3: `set_parents` links the caller into every listed parent's
children, `set_children` links the caller into every listed child's
parents, and in the constructed seed registry every parent link has the
matching child back-link. -/
theorem parent_child_backlinks :
    (∀ (s : Store) (i : Nat) (ps : List Nat), ∀ par ∈ ps,
      i ∈ ((set_parents s i ps) par).children) ∧
    (∀ (s : Store) (i : Nat) (cs : List Nat), ∀ ch ∈ cs,
      i ∈ ((set_children s i cs) ch).parents) ∧
    (∀ p ∈ seedRegistry, ∀ par ∈ (seedStore p).parents, p ∈ (seedStore par).children) :=
  ⟨fun s i ps par h => set_parents_establishes s i ps par h,
    fun s i cs ch h => set_children_establishes s i cs ch h,
    by decide⟩

/-- C3 witness: concrete instances — linking Cornelia under Anna
records Cornelia as Anna's child; linking Lucas under Cornelia records
Cornelia as Lucas's parent; in the seed store Lucas is a child of his
parent Cornelia. -/
theorem parent_child_backlinks_witness :
    0 ∈ ((set_parents seedBase 0 [2, 3]) 2).children ∧
    0 ∈ ((set_children seedBase 0 [6, 7]) 6).parents ∧
    6 ∈ (seedStore 0).children :=
  ⟨parent_child_backlinks.1 seedBase 0 [2, 3] 2 (by decide),
    parent_child_backlinks.2.1 seedBase 0 [6, 7] 6 (by decide),
    parent_child_backlinks.2.2 6 (by decide) 0 (by decide)⟩

/-- C4: `find_siblings s p` contains exactly those who are a child of
some parent of `p` and are not `p` itself: half-siblings included, no
duplicates, and never `p`. -/
theorem find_siblings_spec :
    ∀ (s : Store) (p q : Nat),
      (q ∈ find_siblings s p ↔ (∃ par ∈ (s p).parents, q ∈ (s par).children) ∧ q ≠ p) ∧
      (find_siblings s p).Nodup ∧ p ∉ find_siblings s p :=
  fun s p q =>
    ⟨mem_find_siblings s p q, nodup_find_siblings s p, self_not_mem_find_siblings s p⟩

/-- C4 witness: Emma (id 7) is a sibling of Lucas (id 6) through their
shared parent Cornelia (id 0). -/
theorem find_siblings_spec_witness : 7 ∈ find_siblings seedStore 6 :=
  ((find_siblings_spec seedStore 6 7).1).mpr ⟨⟨0, by decide, by decide⟩, by decide⟩

/-- C5: `find_cousins s p` is the concatenation, over each parent of `p`
and each sibling of that parent, of that sibling's children, with no
deduplication: in `dupStore`, where person 4's two parents share their
sibling set, cousin 5 appears twice and the result has duplicates. -/
theorem find_cousins_spec :
    (∀ (s : Store) (p : Nat),
      find_cousins s p =
        (s p).parents.flatMap
          (fun par => (find_siblings s par).flatMap (fun sib => (s sib).children))) ∧
    (find_cousins dupStore 4).count 5 = 2 ∧ ¬ (find_cousins dupStore 4).Nodup :=
  ⟨find_cousins_eq_flatMap, by decide, by decide⟩

/-- C5 witness: the duplicate-producing store evaluated concretely —
cousins of person 4 are `[4, 5, 4, 5]`. -/
theorem find_cousins_spec_witness : find_cousins dupStore 4 = [4, 5, 4, 5] :=
  (find_cousins_spec.1 dupStore 4).trans (by decide)

/-- C6: `calculate_average_age` equals the arithmetic mean, over exactly
the deceased members of the registry, of age at death computed as the
day difference integer-divided by 365; with no deceased members it is 0
(living members contribute nothing); on the seed registry it is 65. -/
theorem calculate_average_age_spec :
    (∀ (s : Store) (reg : List Nat),
      calculate_average_age s reg =
        if deceasedMembers s reg = [] then 0
        else (((deceasedMembers s reg).map (fun i => (s i).ageAtDeath)).sum : ℚ) /
          ((deceasedMembers s reg).length : ℚ)) ∧
    (∀ (s : Store) (reg : List Nat),
      (∀ i ∈ reg, (s i).isDeceased = false) → calculate_average_age s reg = 0) ∧
    calculate_average_age seedStore seedRegistry = 65 := by
  refine ⟨calculate_average_age_eq, ?_, ?_⟩
  · intro s reg h
    rw [calculate_average_age_eq]
    have hnil : deceasedMembers s reg = [] := by
      unfold deceasedMembers
      rw [List.filter_eq_nil_iff]
      intro i hi
      simp [h i hi]
    rw [if_pos hnil]
  · rw [calculate_average_age_eq]
    rw [show deceasedMembers seedStore seedRegistry = [1, 2, 3, 4, 5] from by decide]
    rw [if_neg (by decide)]
    rw [show (([1, 2, 3, 4, 5] : List Nat).map (fun i => (seedStore i).ageAtDeath)).sum
        = (325 : Int) from by decide]
    norm_num

/-- C6 witness: a registry holding only the living members 0, 6, 7 has
average age at death 0. -/
theorem calculate_average_age_spec_witness :
    calculate_average_age seedStore [0, 6, 7] = 0 :=
  calculate_average_age_spec.2.1 seedStore [0, 6, 7] (by decide)

/-- C7: the birthday calendar groups each registry member under its
(month, day) key — the group at key `k` is exactly the names of the
members born on `k`, in registry iteration order — its keys are sorted
ascending by (month, day) and are distinct; on the seed registry the key
sequence is (2,28), (3,22), (4,10), (5,20), (6,5), (8,15), (11,12), so
the first key is (2,28) and the last is (11,12), and the (6,5) group
lists Raj before Maria in registry order. -/
theorem get_birthdays_calendar_spec :
    (∀ (s : Store) (reg : List Nat), List.Sorted keyLe (get_birthdays_calendar s reg)) ∧
    (∀ (s : Store) (reg : List Nat), ((get_birthdays_calendar s reg).map Prod.fst).Nodup) ∧
    (∀ (s : Store) (reg : List Nat) (k : Nat × Nat),
      groupOf (get_birthdays_calendar s reg) k =
        (reg.filter (fun i => birthKey (s i) = k)).map (fun i => (s i).name)) ∧
    (get_birthdays_calendar seedStore seedRegistry).map Prod.fst =
      [(2, 28), (3, 22), (4, 10), (5, 20), (6, 5), (8, 15), (11, 12)] ∧
    groupOf (get_birthdays_calendar seedStore seedRegistry) (6, 5) =
      ["Raj Singh", "Maria MÃ¼ller"] :=
  ⟨birthdays_calendar_sorted, birthdays_calendar_keys_nodup, birthdays_calendar_groupOf,
    by decide, by decide⟩

/-- C8: looking up a name absent from the registry returns the sentinel
`none` and `get_member_details` returns the string "Person not found.";
for a present name `get_member_details` returns that person's
`display_details` string. -/
theorem get_person_spec :
    ∀ (s : Store) (reg : List Nat) (name : String),
      ((∀ i ∈ reg, (s i).name ≠ name) →
        get_person s reg name = none ∧
        get_member_details s reg name = "Person not found.") ∧
      (∀ i, get_person s reg name = some i →
        get_member_details s reg name = (s i).display_details) := by
  intro s reg name
  constructor
  · intro h
    have hn : get_person s reg name = none := by
      unfold get_person
      rw [List.find?_eq_none]
      intro x hx
      simp only [beq_iff_eq]
      exact h x hx
    refine ⟨hn, ?_⟩
    unfold get_member_details
    rw [hn]
  · intro i hi
    unfold get_member_details
    rw [hi]

/-- C8 witness: "Nobody" is absent from the seed registry and yields the
not-found message; "Anna Singh" is present and yields her details. -/
theorem get_person_spec_witness :
    get_member_details seedStore seedRegistry "Nobody" = "Person not found." ∧
    get_member_details seedStore seedRegistry "Anna Singh" = (seedStore 2).display_details :=
  ⟨((get_person_spec seedStore seedRegistry "Nobody").1 (by decide)).2,
    (get_person_spec seedStore seedRegistry "Anna Singh").2 2 (by decide)⟩

/-- C9: the six relationship resolvers are pure: evaluating each method
body with the store threaded through every attribute read and nested
call returns the untouched store together with the value of the
corresponding read-only function — no person and no registry entry is
ever modified, and the results are ids referencing the same underlying
person objects. -/
theorem resolvers_pure :
    ∀ (s : Store) (p : Nat),
      find_parents_st s p = (find_parents s p, s) ∧
      find_grandparents_st s p = (find_grandparents s p, s) ∧
      find_siblings_st s p = (find_siblings s p, s) ∧
      find_cousins_st s p = (find_cousins s p, s) ∧
      find_immediate_family_st s p = (find_immediate_family s p, s) ∧
      find_extended_family_st s p = (find_extended_family s p, s) :=
  fun s p =>
    ⟨rfl, find_grandparents_st_eq s p, find_siblings_st_eq s p, find_cousins_st_eq s p,
      find_immediate_family_st_eq s p, find_extended_family_st_eq s p⟩

/-- C10: the spouse setter writes only the two spouse fields involved:
after re-linking `p` (whose spouse was `b`) to `c`, `p` and `c` point at
each other, `b` still points at `p` (the stale back-link is never
cleared), and every person other than `p` and `c` is untouched. -/
theorem set_spouse_dangling_link :
    ∀ (s : Store) (p b c : Nat),
      (s b).spouse = some p → b ≠ p → b ≠ c → p ≠ c →
      ((set_spouse s p c) p).spouse = some c ∧
      ((set_spouse s p c) c).spouse = some p ∧
      ((set_spouse s p c) b).spouse = some p ∧
      (∀ x, x ≠ p → x ≠ c → (set_spouse s p c) x = s x) := by
  intro s p b c hb hbp hbc hpc
  refine ⟨?_, ?_, ?_, ?_⟩
  · simp [set_spouse, upd, hpc]
  · simp [set_spouse, upd]
  · simp only [set_spouse, upd]
    rw [if_neg hbc, if_neg hbp]
    exact hb
  · intro x hxp hxc
    simp only [set_spouse, upd]
    rw [if_neg hxc, if_neg hxp]

/-- C10 witness: re-marrying Cornelia (id 0, spouse Otto id 1) to Anna
(id 2) leaves Cornelia and Anna mutually linked, Otto still pointing at
Cornelia, and an uninvolved person (id 5) untouched. -/
theorem set_spouse_dangling_link_witness :
    ((set_spouse seedStore 0 2) 0).spouse = some 2 ∧
    ((set_spouse seedStore 0 2) 2).spouse = some 0 ∧
    ((set_spouse seedStore 0 2) 1).spouse = some 0 ∧
    (set_spouse seedStore 0 2) 5 = seedStore 5 := by
  have h := set_spouse_dangling_link seedStore 0 1 2 (by decide) (by decide) (by decide)
    (by decide)
  exact ⟨h.1, h.2.1, h.2.2.1, h.2.2.2 5 (by decide) (by decide)⟩
